import Mathlib

/-!
Verification of the audit-event filtering core of the audit-tool repository:
the URI decomposer `URIToParts`, the pattern matcher `AcceptString`, the
resource matcher inside `FilterByResources`, the individual filter primitives,
and the `AuditFilters` pipeline.  All definitions are shallow embeddings of
the Go source in `pkg/audit/filter` and `pkg/cmd/query/event_reader.go`;
strings are modelled as their character lists (the code only slices at ASCII
boundaries, where Go byte indexing and character indexing agree), timestamps
as integers (microseconds), and Go `sets.String` / `map[GroupResource]bool`
as lists, which is faithful because every loop over a set below is an
existence or universality check whose result does not depend on iteration
order.
-/

/-- Models Go `strings.HasPrefix` on character lists. -/
def isPrefixOfList : List Char → List Char → Bool
  | [], _ => true
  | _ :: _, [] => false
  | p :: ps, c :: cs => p == c && isPrefixOfList ps cs

/-- Models Go `strings.HasPrefix s pre`. -/
def strStartsWith (s pre : String) : Bool :=
  isPrefixOfList pre.data s.data

/-- Models Go `strings.HasSuffix s suf`. -/
def strEndsWith (s suf : String) : Bool :=
  isPrefixOfList suf.data.reverse s.data.reverse

/-- Models the Go slice expression `v[:len(v)-1]` (used only on patterns whose
last character is the ASCII `*`, where dropping the last byte and dropping the
last character agree). -/
def strDropLast (s : String) : String :=
  ⟨s.data.dropLast⟩

/-- Splitting a character list at a separator; models Go `strings.Split`,
which returns `[""]` on the empty string and keeps empty segments. -/
def splitChar (sep : Char) : List Char → List (List Char)
  | [] => [[]]
  | c :: cs =>
    match splitChar sep cs with
    | [] => [[]]
    | h :: t => if c == sep then [] :: h :: t else (c :: h) :: t

/-- Models Go `strings.Split s (String.singleton sep)`. -/
def goSplit (s : String) (sep : Char) : List String :=
  (splitChar sep s.data).map fun l => ⟨l⟩

/-- Models Go `strings.Join parts sep`. -/
def goJoin (sep : String) : List String → String
  | [] => ""
  | [s] => s
  | s :: rest => s ++ sep ++ goJoin sep rest

/-- Kubernetes `schema.GroupVersionResource`. -/
structure GroupVersionResource where
  group : String
  version : String
  resource : String
deriving DecidableEq

/-- Kubernetes `schema.GroupResource` (what `gvr.GroupResource()` returns). -/
structure GroupResource where
  group : String
  resource : String
deriving DecidableEq

def emptyGVR : GroupVersionResource := ⟨"", "", ""⟩

/-- The segment list `parts` computed at the top of `URIToParts`: strip one
leading `/`, drop the query string, split on `/`. -/
def uriSegments (uri : String) : List String :=
  let uri1 := if strStartsWith uri "/" then (⟨uri.data.tail⟩ : String) else uri
  let uri2 := (goSplit uri1 '?').headD ""
  goSplit uri2 '/'

/-- The root segment `parts[0]` examined by `URIToParts`. -/
def rootSegment (uri : String) : String :=
  (uriSegments uri).getD 0 ""

/-- The branch tree of `URIToParts` over the segment list, mirroring the Go
control flow branch by branch (including the switch fallthroughs in the `api`
arm and the early returns in the `apis` arm). -/
def uriPartsOf (parts : List String) : String × GroupVersionResource × String × String :=
  if parts.length = 0 then ("", emptyGVR, "", "")
  else if parts.getD 0 "" = "api" then
    -- /api/v1/...
    let version := if parts.length ≥ 2 then parts.getD 1 "" else ""
    if parts.length < 3 then ("", ⟨"", version, ""⟩, "", "")
    else if ¬ (parts.getD 2 "" = "namespaces") then
      -- cluster scoped request that is not a namespace
      if parts.length ≥ 4 then ("", ⟨"", version, parts.getD 2 ""⟩, parts.getD 3 "", "")
      else ("", ⟨"", version, parts.getD 2 ""⟩, "", "")
    else if parts.length = 3 then
      -- a namespace request /api/v1/namespaces
      ("", ⟨"", version, parts.getD 2 ""⟩, "", "")
    else if parts.length = 4 then
      -- a namespace request /api/v1/namespaces/<name>
      (parts.getD 3 "", ⟨"", version, parts.getD 2 ""⟩, parts.getD 3 "", "")
    else if parts.length = 5 ∧ (parts.getD 4 "" = "finalize" ∨ parts.getD 4 "" = "status") then
      -- /api/v1/namespaces/<name>/finalize or /api/v1/namespaces/<name>/status
      (parts.getD 3 "", ⟨"", version, parts.getD 2 ""⟩, parts.getD 3 "", parts.getD 4 "")
    else
      -- namespaced resource: /api/v1/namespaces/<ns>/<resource>/<name>/<sub...>
      let ns := parts.getD 3 ""
      let resource := if parts.length ≥ 5 then parts.getD 4 "" else ""
      let name := if parts.length ≥ 6 then parts.getD 5 "" else ""
      if parts.length ≥ 7 then (ns, ⟨"", version, resource⟩, name, goJoin "/" (parts.drop 6))
      else (ns, ⟨"", version, resource⟩, name, "")
  else if ¬ (parts.getD 0 "" = "apis") then ("", emptyGVR, "", "")
  else
    -- /apis/group/version/...
    let group := if parts.length ≥ 2 then parts.getD 1 "" else ""
    let version := if parts.length ≥ 3 then parts.getD 2 "" else ""
    if parts.length < 4 then ("", ⟨group, version, ""⟩, "", "")
    else if ¬ (parts.getD 3 "" = "namespaces") then
      if parts.length ≥ 5 then ("", ⟨group, version, parts.getD 3 ""⟩, parts.getD 4 "", "")
      else ("", ⟨group, version, parts.getD 3 ""⟩, "", "")
    else if parts.length < 5 then ("", ⟨group, version, ""⟩, "", "")
    else
      let ns := parts.getD 4 ""
      let resource := if parts.length ≥ 6 then parts.getD 5 "" else ""
      let name := if parts.length ≥ 7 then parts.getD 6 "" else ""
      if parts.length ≥ 8 then (ns, ⟨group, version, resource⟩, name, goJoin "/" (parts.drop 7))
      else (ns, ⟨group, version, resource⟩, name, "")

/-- Models `URIToParts` from `pkg/audit/filter`: returns
(namespace, gvr, name, subresource). -/
def URIToParts (uri : String) : String × GroupVersionResource × String × String :=
  uriPartsOf (uriSegments uri)

/-- The audit event record (`auditv1.Event`) restricted to the fields the
filter layer reads.  Timestamps are integers (microseconds since the epoch,
matching `metav1.MicroTime` precision); `responseStatusCode` is `none` when
`ResponseStatus` is nil; `objectRefName` is `none` when `ObjectRef` is nil
(only its `Name` field is read by any filter). -/
structure Event where
  stage : String
  requestReceivedTimestamp : Int
  stageTimestamp : Int
  requestURI : String
  verb : String
  username : String
  responseStatusCode : Option Int
  objectRefName : Option String
  auditID : String
deriving DecidableEq

/-- The group-version-resource decomposed from an event request URI,
`_, gvr, _, _ := URIToParts(event.RequestURI)`. -/
def eventGVR (e : Event) : GroupVersionResource :=
  (URIToParts e.requestURI).2.1

/-- The namespace decomposed from an event request URI. -/
def eventNamespace (e : Event) : String :=
  (URIToParts e.requestURI).1

/-- The object name decomposed from an event request URI. -/
def eventName (e : Event) : String :=
  (URIToParts e.requestURI).2.2.1

/-- The subresource decomposed from an event request URI. -/
def eventSubresource (e : Event) : String :=
  (URIToParts e.requestURI).2.2.2

/-- The common Go loop shape `ret := []; for _, e := range events { if p(e)
{ ret = append(ret, e) } }; return ret` shared by every filter primitive that
appends each event at most once. -/
def goFilter {α : Type} (p : α → Bool) (events : List α) : List α :=
  events.foldl (fun ret e => if p e then ret ++ [e] else ret) []

/-- Models `AcceptString(allowedValues, currValue)` from `pkg/audit/filter`:
anti-literal, anti-wildcard, all-negative default accept, literal, wildcard,
in that order.  The `sets.String` is a list; both loops are existence /
universality checks, so iteration order is irrelevant. -/
def AcceptString (allowedValues : List String) (currValue : String) : Bool :=
  if allowedValues.contains ("-" ++ currValue) then false
  else if allowedValues.any (fun v =>
      strEndsWith v "*" && strStartsWith v "-" &&
      strStartsWith ("-" ++ currValue) (strDropLast v)) then false
  else if allowedValues.all (fun v => strStartsWith v "-") then true
  else if allowedValues.contains currValue then true
  else if allowedValues.any (fun v =>
      strEndsWith v "*" && !(strStartsWith v "-") &&
      strStartsWith currValue (strDropLast v)) then true
  else false

/-- Lookup in the `map[schema.GroupResource]bool` held by `FilterByResources`
(`m[k]` in Go: the stored value, or `false` when the key is absent). -/
def lookupBool : List (GroupResource × Bool) → GroupResource → Bool
  | [], _ => false
  | kv :: rest, k => if kv.1 = k then kv.2 else lookupBool rest k

/-- The first scan loop of `FilterByResources.FilterEvents`: anti-matched if
some specifier has group `*` and resource `-<resource>`, or resource `-*` and
the event's group. -/
def antiMatchScan (resources : List (GroupResource × Bool)) (gvr : GroupVersionResource) : Bool :=
  resources.any fun kv =>
    (kv.1.group == "*" && kv.1.resource == "-" ++ gvr.resource) ||
    (kv.1.resource == "-*" && kv.1.group == gvr.group)

/-- The second scan loop of `FilterByResources.FilterEvents`: accept on full
wildcard, group wildcard with matching resource, or resource wildcard with
matching group. -/
def acceptScan (resources : List (GroupResource × Bool)) (gvr : GroupVersionResource) : Bool :=
  resources.any fun kv =>
    (kv.1.group == "*" && kv.1.resource == "*") ||
    (kv.1.group == "*" && kv.1.resource == gvr.resource) ||
    (kv.1.resource == "*" && kv.1.group == gvr.group)

/-- The per-event body of the `FilterByResources.FilterEvents` loop: the list
of copies of `e` appended to `ret` during that iteration.  Mirrors the Go
control flow: direct anti-match lookup, exact-pair lookup (which appends
immediately), anti-match scan (which only skips the rest of the iteration),
accept scan (which may append a second time). -/
def resourceStep (resources : List (GroupResource × Bool)) (e : Event) : List Event :=
  let gvr := eventGVR e
  let antiMatch : GroupResource := ⟨gvr.group, "-" ++ gvr.resource⟩
  if lookupBool resources antiMatch then []
  else
    let ret := if lookupBool resources ⟨gvr.group, gvr.resource⟩ then [e] else []
    if antiMatchScan resources gvr then ret
    else if acceptScan resources gvr then ret ++ [e]
    else ret

/-- Models `FilterByResources.FilterEvents`. -/
def FilterByResources.FilterEvents (resources : List (GroupResource × Bool))
    (events : List Event) : List Event :=
  events.foldl (fun ret e => ret ++ resourceStep resources e) []

/-- Models `FilterByFailures.FilterEvents` (status present and > 299). -/
def FilterByFailures.FilterEvents (events : List Event) : List Event :=
  goFilter (fun e =>
    match e.responseStatusCode with
    | none => false
    | some code => decide (code > 299)) events

/-- Models `FilterByHTTPStatus.FilterEvents`. -/
def FilterByHTTPStatus.FilterEvents (httpStatusCodes : List Int)
    (events : List Event) : List Event :=
  goFilter (fun e =>
    match e.responseStatusCode with
    | none => false
    | some code => httpStatusCodes.contains code) events

/-- Models `FilterByNamespaces.FilterEvents`. -/
def FilterByNamespaces.FilterEvents (namespaces : List String)
    (events : List Event) : List Event :=
  goFilter (fun e => AcceptString namespaces (eventNamespace e)) events

/-- Models `FilterBySubresources.FilterEvents`: the special case for a
pattern set exactly `{"-*"}` with an empty decomposed subresource, else
`AcceptString`. -/
def FilterBySubresources.FilterEvents (subresources : List String)
    (events : List Event) : List Event :=
  goFilter (fun e =>
    (subresources.contains "-*" && subresources.length == 1 &&
      (eventSubresource e).data.length == 0) ||
    AcceptString subresources (eventSubresource e)) events

/-- Models `FilterByNames.FilterEvents`: accept on the decomposed name, or
fall back to the object reference's name when present. -/
def FilterByNames.FilterEvents (names : List String)
    (events : List Event) : List Event :=
  goFilter (fun e =>
    AcceptString names (eventName e) ||
    (match e.objectRefName with
     | none => false
     | some n => AcceptString names n)) events

/-- Models `FilterByUIDs.FilterEvents`. -/
def FilterByUIDs.FilterEvents (uids : List String) (events : List Event) : List Event :=
  goFilter (fun e => AcceptString uids e.auditID) events

/-- Models `FilterByUser.FilterEvents`. -/
def FilterByUser.FilterEvents (users : List String) (events : List Event) : List Event :=
  goFilter (fun e => AcceptString users e.username) events

/-- Models `FilterByVerbs.FilterEvents`. -/
def FilterByVerbs.FilterEvents (verbs : List String) (events : List Event) : List Event :=
  goFilter (fun e => AcceptString verbs e.verb) events

/-- Models `FilterByStage.FilterEvents`: an empty stage set returns the input
slice unchanged, otherwise exact set membership. -/
def FilterByStage.FilterEvents (stages : List String) (events : List Event) : List Event :=
  if stages.isEmpty then events
  else goFilter (fun e => stages.contains e.stage) events

/-- Models `FilterByAfter.FilterEvents` (`Time.After` is a strict >). -/
def FilterByAfter.FilterEvents (after : Int) (events : List Event) : List Event :=
  goFilter (fun e => decide (e.requestReceivedTimestamp > after)) events

/-- Models `FilterByBefore.FilterEvents` (`MicroTime.Before` is a strict <). -/
def FilterByBefore.FilterEvents (before : Int) (events : List Event) : List Event :=
  goFilter (fun e => decide (e.requestReceivedTimestamp < before)) events

/-- Models `FilterByDuration.FilterEvents`:
`event.StageTimestamp.Sub(event.RequestReceivedTimestamp.Time) <= f.Duration`. -/
def FilterByDuration.FilterEvents (duration : Int) (events : List Event) : List Event :=
  goFilter (fun e => decide (e.stageTimestamp - e.requestReceivedTimestamp ≤ duration)) events

/-- The closed set of filter primitives implementing the `AuditFilter`
interface (one constructor per concrete `FilterBy*` type, carrying its
configuration). -/
inductive AuditFilter where
  | byFailures : AuditFilter
  | byHTTPStatus (httpStatusCodes : List Int) : AuditFilter
  | byNamespaces (namespaces : List String) : AuditFilter
  | bySubresources (subresources : List String) : AuditFilter
  | byNames (names : List String) : AuditFilter
  | byUIDs (uids : List String) : AuditFilter
  | byUser (users : List String) : AuditFilter
  | byVerbs (verbs : List String) : AuditFilter
  | byResources (resources : List (GroupResource × Bool)) : AuditFilter
  | byStage (stages : List String) : AuditFilter
  | byAfter (after : Int) : AuditFilter
  | byBefore (before : Int) : AuditFilter
  | byDuration (duration : Int) : AuditFilter
deriving DecidableEq

/-- Dynamic dispatch of `AuditFilter.FilterEvents` to the concrete filter. -/
def AuditFilter.filterEvents : AuditFilter → List Event → List Event
  | .byFailures, events => FilterByFailures.FilterEvents events
  | .byHTTPStatus codes, events => FilterByHTTPStatus.FilterEvents codes events
  | .byNamespaces namespaces, events => FilterByNamespaces.FilterEvents namespaces events
  | .bySubresources subresources, events => FilterBySubresources.FilterEvents subresources events
  | .byNames names, events => FilterByNames.FilterEvents names events
  | .byUIDs uids, events => FilterByUIDs.FilterEvents uids events
  | .byUser users, events => FilterByUser.FilterEvents users events
  | .byVerbs verbs, events => FilterByVerbs.FilterEvents verbs events
  | .byResources resources, events => FilterByResources.FilterEvents resources events
  | .byStage stages, events => FilterByStage.FilterEvents stages events
  | .byAfter after, events => FilterByAfter.FilterEvents after events
  | .byBefore before, events => FilterByBefore.FilterEvents before events
  | .byDuration duration, events => FilterByDuration.FilterEvents duration events

/-- Models `AuditFilters.FilterEvents`: copy the input slice, then apply each
filter in order to the surviving events. -/
def AuditFilters.FilterEvents (filters : List AuditFilter) (events : List Event) : List Event :=
  filters.foldl (fun ret f => f.filterEvents ret) events

/-- The comparison function passed to `sort.Slice` in `decodeAuditEvents`
(`pkg/cmd/query/event_reader.go`), translated element-wise: the Go closure is
`events[i].RequestReceivedTimestamp.After(events[i].RequestReceivedTimestamp.Time)`,
so both operands are the element at index `i` — the second element `y`
(Go's `events[j]`) is never consulted. -/
def decodeSortLess (x : Event) : Event → Bool := fun _ =>
  decide (x.requestReceivedTimestamp > x.requestReceivedTimestamp)

/-- Insertion of an element into a sorted prefix, used to model `sort.Slice`. -/
def insertBefore (less : Event → Event → Bool) (e : Event) : List Event → List Event
  | [] => [e]
  | f :: rest => if less f e then f :: insertBefore less e rest else e :: f :: rest

/-- Insertion sort with an explicit comparison; models the `sort.Slice` call
of `decodeAuditEvents` (for slices below Go's pdqsort threshold the standard
library performs exactly an insertion sort, and for a comparison that is
constantly false any correct implementation must treat all elements as
mutually equal). -/
def insertionSortBy (less : Event → Event → Bool) : List Event → List Event
  | [] => []
  | e :: rest => insertBefore less e (insertionSortBy less rest)

/-- The caller-side sort step of `decodeAuditEvents`, applied after the
filter pipeline. -/
def decodeSortEvents (events : List Event) : List Event :=
  insertionSortBy decodeSortLess events

/-! ### Generic lemmas about the loop shapes -/

theorem goFilter_foldl_eq {α : Type} (p : α → Bool) :
    ∀ (l acc : List α),
      l.foldl (fun ret e => if p e then ret ++ [e] else ret) acc = acc ++ l.filter p := by
  intro l
  induction l with
  | nil => intro acc; simp
  | cons e l ih =>
    intro acc
    cases hp : p e <;> simp [List.filter, hp, ih, List.append_assoc]

/-- The append-if-accepted loop is `List.filter`. -/
theorem goFilter_eq_filter {α : Type} (p : α → Bool) (l : List α) :
    goFilter p l = l.filter p := by
  simpa using goFilter_foldl_eq p l []

theorem resources_foldl_eq (resources : List (GroupResource × Bool)) :
    ∀ (l acc : List Event),
      l.foldl (fun ret e => ret ++ resourceStep resources e) acc
        = acc ++ l.flatMap (resourceStep resources) := by
  intro l
  induction l with
  | nil => intro acc; simp
  | cons e l ih => intro acc; simp [ih, List.append_assoc]

/-- The resource-filter loop is a flat map of its per-event step. -/
theorem FilterByResources_eq_flatMap (resources : List (GroupResource × Bool))
    (events : List Event) :
    FilterByResources.FilterEvents resources events
      = events.flatMap (resourceStep resources) := by
  simpa [FilterByResources.FilterEvents] using resources_foldl_eq resources events []

/-- Every copy emitted by the per-event step of `FilterByResources` is the
event itself, and at most two copies are emitted. -/
theorem resourceStep_sublist (resources : List (GroupResource × Bool)) (e : Event) :
    (resourceStep resources e).Sublist [e, e] := by
  unfold resourceStep
  cases h1 : lookupBool resources ⟨(eventGVR e).group, "-" ++ (eventGVR e).resource⟩ <;>
    cases h2 : lookupBool resources ⟨(eventGVR e).group, (eventGVR e).resource⟩ <;>
      cases h3 : antiMatchScan resources (eventGVR e) <;>
        cases h4 : acceptScan resources (eventGVR e) <;>
          simp only [h1, h2, h3, h4, if_true, if_false, Bool.false_eq_true,
            List.nil_append] <;>
          first
            | exact List.nil_sublist _
            | exact List.sublist_cons_self _ _
            | exact List.Sublist.refl _

/-- Anything the per-event resource step emits is the event itself. -/
theorem resourceStep_mem (resources : List (GroupResource × Bool)) (e x : Event)
    (hx : x ∈ resourceStep resources e) : x = e := by
  have h := (resourceStep_sublist resources e).subset hx
  simpa using h

theorem flatMap_sublist_flatMap {α β : Type} (f g : α → List β)
    (h : ∀ a, (f a).Sublist (g a)) :
    ∀ l : List α, (l.flatMap f).Sublist (l.flatMap g) := by
  intro l
  induction l with
  | nil => simp
  | cons a l ih => simpa using (h a).append ih

/-- Each filter primitive other than `FilterByResources` returns a sublist of
its input. -/
theorem auditFilter_sublist (f : AuditFilter) (events : List Event)
    (h : ∀ resources, f ≠ .byResources resources) :
    (f.filterEvents events).Sublist events := by
  cases f with
  | byResources resources => exact absurd rfl (h resources)
  | byStage stages =>
    by_cases hs : stages.isEmpty <;>
      simp [AuditFilter.filterEvents, FilterByStage.FilterEvents, hs,
        goFilter_eq_filter, List.filter_sublist]
  | _ =>
    simp only [AuditFilter.filterEvents, FilterByFailures.FilterEvents,
      FilterByHTTPStatus.FilterEvents, FilterByNamespaces.FilterEvents,
      FilterBySubresources.FilterEvents, FilterByNames.FilterEvents,
      FilterByUIDs.FilterEvents, FilterByUser.FilterEvents,
      FilterByVerbs.FilterEvents, FilterByAfter.FilterEvents,
      FilterByBefore.FilterEvents, FilterByDuration.FilterEvents,
      goFilter_eq_filter]
    exact List.filter_sublist _

/-- Every filter primitive, `FilterByResources` included, only emits events
drawn from its input. -/
theorem auditFilter_mem (f : AuditFilter) (events : List Event) (x : Event)
    (hx : x ∈ f.filterEvents events) : x ∈ events := by
  by_cases hres : ∀ resources, f ≠ .byResources resources
  · exact (auditFilter_sublist f events hres).subset hx
  · push_neg at hres
    obtain ⟨resources, rfl⟩ := hres
    rw [AuditFilter.filterEvents, FilterByResources_eq_flatMap] at hx
    obtain ⟨e, he, hxe⟩ := List.mem_flatMap.mp hx
    exact (resourceStep_mem resources e x hxe) ▸ he

/-- The pipeline only emits events drawn from its input. -/
theorem auditFilters_mem (filters : List AuditFilter) :
    ∀ (events : List Event) (x : Event),
      x ∈ AuditFilters.FilterEvents filters events → x ∈ events := by
  induction filters with
  | nil => intro events x hx; simpa [AuditFilters.FilterEvents] using hx
  | cons f fs ih =>
    intro events x hx
    exact auditFilter_mem f events x (ih (f.filterEvents events) x hx)



/-! ### Claim theorems -/

/-- C6: `URIToParts` decomposes the three reference URIs exactly as
specified: `/api/v1/namespaces/foo/pods/bar` to namespace `foo`, empty group,
version `v1`, resource `pods`, name `bar`, empty subresource;
`/apis/apps/v1/namespaces/ns1/deployments/d1/status` to group `apps`,
version `v1`, namespace `ns1`, resource `deployments`, name `d1`,
subresource `status`; and `/api/v1/namespaces` to resource `namespaces`,
empty namespace and empty name. -/
theorem URIToParts_reference_URIs :
    URIToParts "/api/v1/namespaces/foo/pods/bar"
      = ("foo", ⟨"", "v1", "pods"⟩, "bar", "")
    ∧ URIToParts "/apis/apps/v1/namespaces/ns1/deployments/d1/status"
      = ("ns1", ⟨"apps", "v1", "deployments"⟩, "d1", "status")
    ∧ URIToParts "/api/v1/namespaces"
      = ("", ⟨"", "v1", "namespaces"⟩, "", "") :=
  ⟨by decide, by decide, by decide⟩

/-- C7: `URIToParts` is a total function (it is a Lean `def`, so it is
defined on every input string; every segment access in the embedding is
guarded exactly as the Go index accesses are), and on the empty path, or on
any path whose root segment is neither `api` nor `apis`, it returns the
all-empty result. -/
theorem URIToParts_total_and_empty_on_unknown_root :
    URIToParts "" = ("", emptyGVR, "", "")
    ∧ ∀ uri : String, rootSegment uri ≠ "api" → rootSegment uri ≠ "apis" →
        URIToParts uri = ("", emptyGVR, "", "") := by
  refine ⟨by decide, ?_⟩
  intro uri h1 h2
  unfold rootSegment at h1 h2
  unfold URIToParts uriPartsOf
  by_cases hl : (uriSegments uri).length = 0
  · rw [if_pos hl]
  · rw [if_neg hl, if_neg h1, if_pos h2]

/-- Closed witness for the hypotheses of C7: the root segment of
`/foo/bar` is neither `api` nor `apis`, and the decomposition is all-empty. -/
theorem URIToParts_total_and_empty_on_unknown_root_witness :
    URIToParts "/foo/bar" = ("", emptyGVR, "", "") :=
  URIToParts_total_and_empty_on_unknown_root.2 "/foo/bar" (by decide) (by decide)

/-- C3: in `AcceptString`, whenever some pattern is a negated wildcard whose
stripped form is a prefix of `"-" ++ value`, the value is rejected — the
conclusion holds unconditionally, in particular the rejection is not
overridden by the later all-negative default-accept rule. -/
theorem AcceptString_negated_wildcard_rejects (patterns : List String) (value : String)
    (h : patterns.any (fun v =>
        strEndsWith v "*" && strStartsWith v "-" &&
        strStartsWith ("-" ++ value) (strDropLast v)) = true) :
    AcceptString patterns value = false := by
  unfold AcceptString
  split <;> rfl

/-- Closed witness for the hypothesis of C3: `-kube-*` is a negated wildcard
matching `kube-scheduler`, which is rejected. -/
theorem AcceptString_negated_wildcard_rejects_witness :
    AcceptString ["-kube-*"] "kube-scheduler" = false :=
  AcceptString_negated_wildcard_rejects ["-kube-*"] "kube-scheduler" (by decide)

/-- C4: for a non-empty all-negative pattern set, any value not hit by a
negation (neither by the exact negated literal nor by a negated wildcard) is
accepted by default, and the four concrete example evaluations from the spec
hold. -/
theorem AcceptString_all_negative_default_accept :
    (∀ (patterns : List String) (value : String),
        patterns ≠ [] →
        patterns.all (fun v => strStartsWith v "-") = true →
        patterns.contains ("-" ++ value) = false →
        patterns.any (fun v =>
            strEndsWith v "*" && strStartsWith v "-" &&
            strStartsWith ("-" ++ value) (strDropLast v)) = false →
        AcceptString patterns value = true)
    ∧ AcceptString ["-alice"] "bob" = true
    ∧ AcceptString ["-alice"] "alice" = false
    ∧ AcceptString ["-kube-*"] "kube-scheduler" = false
    ∧ AcceptString ["-kube-*"] "other" = true := by
  refine ⟨?_, by decide, by decide, by decide, by decide⟩
  intro patterns value hne hall hc hw
  have hc2 : ("-" ++ value) ∉ patterns := by simpa using hc
  simp [AcceptString, hc2, hw, hall]

/-- Closed witness for the hypotheses of C4: `{-alice}` is non-empty and
all-negative, `bob` is hit by no negation and is accepted. -/
theorem AcceptString_all_negative_default_accept_witness :
    AcceptString ["-alice"] "bob" = true :=
  AcceptString_all_negative_default_accept.1 ["-alice"] "bob"
    (by decide) (by decide) (by decide) (by decide)

/-- `AcceptString` against the singleton pattern set `{"-*"}` rejects every
value: any non-`*` value is caught by the negated-wildcard check (the
stripped pattern `-` is a prefix of `"-" ++ value`) and `*` itself by the
exact negated literal. -/
theorem acceptString_negstar (s : String) : AcceptString ["-*"] s = false := by
  unfold AcceptString
  by_cases hc : (["-*"].contains ("-" ++ s)) = true
  · rw [if_pos hc]
  · rw [if_neg hc, if_pos ?h]
    case h =>
      obtain ⟨l⟩ := s
      show (strEndsWith "-*" "*" && strStartsWith "-*" "-" &&
        strStartsWith ("-" ++ (⟨l⟩ : String)) (strDropLast "-*")) || false = true
      have h3 : strStartsWith ("-" ++ (⟨l⟩ : String)) (strDropLast "-*") = true := by
        show isPrefixOfList ['-'] ('-' :: l) = true
        simp [isPrefixOfList]
      simp [h3]
      decide

/-- C8: `FilterBySubresources` configured with the pattern set exactly
`{"-*"}` keeps exactly the events whose decomposed subresource is empty:
its output is the input filtered on an empty subresource, so every event
with an empty subresource is kept and every other event is dropped. -/
theorem FilterBySubresources_negstar_keeps_exactly_empty (events : List Event) :
    FilterBySubresources.FilterEvents ["-*"] events
      = events.filter (fun e => eventSubresource e == "") := by
  unfold FilterBySubresources.FilterEvents
  rw [goFilter_eq_filter]
  apply List.filter_congr
  intro e _
  rw [acceptString_negstar, Bool.or_false]
  generalize eventSubresource e = s
  obtain ⟨l⟩ := s
  cases l with
  | nil => decide
  | cons c cs =>
    have hne : ((⟨c :: cs⟩ : String) == "") = false := by
      rw [beq_eq_false_iff_ne]
      intro hcontra
      exact absurd (String.ext_iff.mp hcontra) (by simp)
    simp [hne]

/-- C9: `FilterByDuration` accepts an event exactly when its stage timestamp
minus its request-received timestamp is at most the configured duration; the
boundary is inclusive (the comparison in the code is `<=`), as the
single-event characterisation makes explicit. -/
theorem FilterByDuration_accepts_iff :
    (∀ (duration : Int) (events : List Event) (e : Event),
        e ∈ FilterByDuration.FilterEvents duration events
          ↔ e ∈ events ∧ e.stageTimestamp - e.requestReceivedTimestamp ≤ duration)
    ∧ (∀ (duration : Int) (e : Event),
        FilterByDuration.FilterEvents duration [e]
          = if e.stageTimestamp - e.requestReceivedTimestamp ≤ duration
            then [e] else []) := by
  constructor
  · intro duration events e
    unfold FilterByDuration.FilterEvents
    rw [goFilter_eq_filter]
    simp [List.mem_filter]
  · intro duration e
    unfold FilterByDuration.FilterEvents
    rw [goFilter_eq_filter]
    by_cases h : e.stageTimestamp - e.requestReceivedTimestamp ≤ duration <;>
      simp [List.filter, h]

/-- C10 (amended): empty configuration sets degrade without error, but not
all to pass-through: `FilterByStage` with an empty stage set returns its
input unchanged and `AcceptString` with an empty pattern set accepts every
value, while `FilterByResources` with an empty specifier set drops every
event (its accept scan iterates an empty set, so nothing is ever appended)
— a well-defined empty result rather than a pass-through. -/
theorem empty_sets_degrade :
    (∀ events : List Event, FilterByStage.FilterEvents [] events = events)
    ∧ (∀ value : String, AcceptString [] value = true)
    ∧ (∀ events : List Event, FilterByResources.FilterEvents [] events = []) := by
  refine ⟨fun events => rfl, fun value => rfl, fun events => ?_⟩
  rw [FilterByResources_eq_flatMap]
  have hstep : ∀ e : Event, resourceStep [] e = [] := fun e => rfl
  induction events with
  | nil => rfl
  | cons e es ih => simp only [List.flatMap_cons, hstep, List.nil_append]; exact ih

/-- A sample audit event for a core-group `pods` request. -/
def eC10 : Event :=
  ⟨"ResponseComplete", 0, 0, "/api/v1/pods", "get", "alice", none, none, "uid-1"⟩

/-- Counterexample to C10 as stated: `FilterByResources` with an empty
specifier set does not pass events through — on a one-event input it returns
the empty list. -/
theorem FilterByResources_empty_set_drops_events :
    FilterByResources.FilterEvents [] [eC10] = []
    ∧ FilterByResources.FilterEvents [] [eC10] ≠ [eC10] := by
  refine ⟨rfl, ?_⟩
  intro h
  exact absurd h (by decide)

/-- An audit event whose request URI decomposes to group `g`, resource `r`. -/
def eApisGR : Event :=
  ⟨"ResponseComplete", 0, 0, "/apis/g/v1/r", "get", "alice", none, none, "uid-2"⟩

/-- A specifier set listing the exact pair (g, r) together with the
group-wildcard anti-specifier (*, -r). -/
def rsAntiExact : List (GroupResource × Bool) :=
  [(⟨"g", "r"⟩, true), (⟨"*", "-r"⟩, true)]

/-- Counterexample to C1 as stated: the event's (g, r) triggers the
anti-match scan via the specifier (*, -r), its exact pair (g, r) is present
and listed, and yet the event is NOT excluded: the exact-pair branch appends
it before the anti-match scan runs, and the scan only skips the later accept
scan. -/
theorem FilterByResources_antiScan_not_overriding_exact :
    antiMatchScan rsAntiExact (eventGVR eApisGR) = true
    ∧ lookupBool rsAntiExact ⟨(eventGVR eApisGR).group, (eventGVR eApisGR).resource⟩ = true
    ∧ FilterByResources.FilterEvents rsAntiExact [eApisGR] = [eApisGR] :=
  ⟨by decide, by decide, by decide⟩

/-- C1 (amended): when the anti-match scan triggers for an event, the event
gains nothing from the wildcard accept scan: it appears in the output exactly
when the direct anti-specifier (group, -resource) is absent and its exact
(group, resource) pair is present and listed; an exact-pair accept is NOT
suppressed by the anti-match scan. -/
theorem FilterByResources_antiScan_blocks_accept_scan
    (resources : List (GroupResource × Bool)) (e : Event)
    (h : antiMatchScan resources (eventGVR e) = true) :
    FilterByResources.FilterEvents resources [e]
      = if lookupBool resources ⟨(eventGVR e).group, "-" ++ (eventGVR e).resource⟩ = false
            ∧ lookupBool resources ⟨(eventGVR e).group, (eventGVR e).resource⟩ = true
        then [e] else [] := by
  rw [FilterByResources_eq_flatMap]
  simp only [List.flatMap_cons, List.flatMap_nil, List.append_nil]
  unfold resourceStep
  cases h1 : lookupBool resources ⟨(eventGVR e).group, "-" ++ (eventGVR e).resource⟩ <;>
    cases h2 : lookupBool resources ⟨(eventGVR e).group, (eventGVR e).resource⟩ <;>
      simp [h1, h2, h]

/-- Closed witness for the hypothesis of C1 (amended): with the specifier set
(g, r) listed and (*, -r) present, the anti-match scan triggers for the
(g, r) event and the theorem evaluates its output. -/
theorem FilterByResources_antiScan_blocks_accept_scan_witness :
    FilterByResources.FilterEvents rsAntiExact [eApisGR]
      = if lookupBool rsAntiExact ⟨(eventGVR eApisGR).group, "-" ++ (eventGVR eApisGR).resource⟩ = false
            ∧ lookupBool rsAntiExact ⟨(eventGVR eApisGR).group, (eventGVR eApisGR).resource⟩ = true
        then [eApisGR] else [] :=
  FilterByResources_antiScan_blocks_accept_scan rsAntiExact eApisGR (by decide)

/-- A sample event for a core-group `pods` request used for the duplication
counterexample. -/
def ePods : Event :=
  ⟨"ResponseComplete", 0, 0, "/api/v1/pods", "get", "bob", none, none, "uid-3"⟩

/-- A specifier set listing both the exact pair ("", pods) and the full
wildcard (*, *). -/
def rsExactAndWildcard : List (GroupResource × Bool) :=
  [(⟨"", "pods"⟩, true), (⟨"*", "*"⟩, true)]

/-- Counterexample to C2 as stated: `FilterByResources` can emit one input
event twice — once from the exact-pair branch and once from the wildcard
accept scan — so its output is not an ordered subsequence (sublist) of the
input. -/
theorem FilterByResources_duplicates_event :
    FilterByResources.FilterEvents rsExactAndWildcard [ePods] = [ePods, ePods]
    ∧ ¬ (FilterByResources.FilterEvents rsExactAndWildcard [ePods]).Sublist [ePods] := by
  refine ⟨by decide, fun h => ?_⟩
  rw [(by decide :
    FilterByResources.FilterEvents rsExactAndWildcard [ePods] = [ePods, ePods])] at h
  exact absurd h.length_le (by decide)

/-- C2 (amended): every filter primitive other than `FilterByResources`
returns an ordered subsequence (sublist) of its input; `FilterByResources`
preserves relative order and emits only events of its input, but may emit an
event twice, so its output is only a sublist of the input with each event
doubled; and the whole `AuditFilters` pipeline emits only events drawn from
its input (no event is ever created or mutated). -/
theorem audit_filters_ordered_subsequence_amended :
    (∀ (f : AuditFilter) (events : List Event),
        (∀ resources, f ≠ .byResources resources) →
        (f.filterEvents events).Sublist events)
    ∧ (∀ (resources : List (GroupResource × Bool)) (events : List Event),
        (FilterByResources.FilterEvents resources events).Sublist
          (events.flatMap fun e => [e, e]))
    ∧ (∀ (filters : List AuditFilter) (events : List Event) (x : Event),
        x ∈ AuditFilters.FilterEvents filters events → x ∈ events) := by
  refine ⟨auditFilter_sublist, fun resources events => ?_, auditFilters_mem⟩
  rw [FilterByResources_eq_flatMap]
  exact flatMap_sublist_flatMap _ _ (resourceStep_sublist resources) events

/-- Closed witness for the hypotheses of C2 (amended): the verb filter is not
the resource filter and yields a sublist on a concrete input, and a concrete
pipeline output membership is reflected into the input. -/
theorem audit_filters_ordered_subsequence_amended_witness :
    ((AuditFilter.byVerbs ["get"]).filterEvents [ePods]).Sublist [ePods]
    ∧ ePods ∈ ([ePods] : List Event) :=
  ⟨audit_filters_ordered_subsequence_amended.1 (.byVerbs ["get"]) [ePods]
      (fun _ h => AuditFilter.noConfusion h),
    audit_filters_ordered_subsequence_amended.2.2 [AuditFilter.byVerbs ["get"]] [ePods] ePods
      (by decide)⟩

/-- Event received at time 5 (microseconds). -/
def eReceived5 : Event :=
  ⟨"ResponseComplete", 5, 5, "/api/v1/pods", "get", "u", none, none, "id-5"⟩

/-- Event received at time 3 (microseconds). -/
def eReceived3 : Event :=
  ⟨"ResponseComplete", 3, 3, "/api/v1/pods", "get", "u", none, none, "id-3"⟩

/-- Event received at time 4 (microseconds). -/
def eReceived4 : Event :=
  ⟨"ResponseComplete", 4, 4, "/api/v1/pods", "get", "u", none, none, "id-4"⟩

/-- C5 (code bug): the comparison closure passed to `sort.Slice` in
`decodeAuditEvents` reads `events[i].RequestReceivedTimestamp.After(events[i].RequestReceivedTimestamp.Time)`
— both operands are the element at index `i` — so it compares every event's
receive time with itself and is constantly false.  Sorting with a constantly
false comparison treats all elements as equal and leaves the decode order in
place, so the returned slice with receive times 5, 3, 4 is ordered neither
ascending nor descending by receive time: the middle event was received
before both neighbours. -/
theorem decodeAuditEvents_sort_comparator_broken :
    (∀ x y : Event, decodeSortLess x y = false)
    ∧ decodeSortEvents [eReceived5, eReceived3, eReceived4]
        = [eReceived5, eReceived3, eReceived4]
    ∧ eReceived3.requestReceivedTimestamp < eReceived5.requestReceivedTimestamp
    ∧ eReceived3.requestReceivedTimestamp < eReceived4.requestReceivedTimestamp := by
  refine ⟨fun x y => ?_, by decide, by decide, by decide⟩
  simp [decodeSortLess]
